import Mathlib

/-!
Shallow embedding of the `whois` client from `src/whois/main.rs`.

Hostnames, response lines and arguments are modelled as `List Char`
(Rust `String`s).  A server's response is a `List (List Char)`: the
sequence of lines produced by `BufReader::read_line` (each line normally
ends with a newline character).  The network is modelled by an oracle
`resp : List Char → List (List Char)` mapping a host to the lines of its
response; connections are assumed to succeed (connect/send/receive
failures abort the program and are outside the claims settled here).
The `while host != ""` loop of `main` is embedded as the fuel-indexed
function `run`; `Outcome.fuelOut` marks exhausted fuel, never an actual
behaviour of the program.
-/

namespace Whois

/-- Rust `char::is_whitespace`: the Unicode `White_Space` property
(this is what `str::trim_left` strips). -/
def rustIsWhitespace (c : Char) : Bool :=
  c.toNat == 0x9 || c.toNat == 0xA || c.toNat == 0xB || c.toNat == 0xC ||
  c.toNat == 0xD || c.toNat == 0x20 || c.toNat == 0x85 || c.toNat == 0xA0 ||
  c.toNat == 0x1680 || (0x2000 ≤ c.toNat && c.toNat ≤ 0x200A) ||
  c.toNat == 0x2028 || c.toNat == 0x2029 || c.toNat == 0x202F ||
  c.toNat == 0x205F || c.toNat == 0x3000

/-- Rust `char::is_ascii_alphanumeric`. -/
def rustIsAsciiAlphanumeric (c : Char) : Bool :=
  (48 ≤ c.toNat && c.toNat ≤ 57) || (65 ≤ c.toNat && c.toNat ≤ 90) ||
  (97 ≤ c.toNat && c.toNat ≤ 122)

/-- Rust `char::to_ascii_lowercase`: ASCII upper-case letters are shifted
by 32, every other character is unchanged. -/
def rustToAsciiLower (c : Char) : Char :=
  if 65 ≤ c.toNat && c.toNat ≤ 90 then Char.ofNat (c.toNat + 32) else c

/-- Rust `str::to_ascii_lowercase` on a string. -/
def toAsciiLowercase (s : List Char) : List Char :=
  s.map rustToAsciiLower

/-- Rust `str::trim_left` (a.k.a. `trim_start`): drop leading whitespace. -/
def trimLeft (s : List Char) : List Char :=
  s.dropWhile rustIsWhitespace

/-- Rust `str::trim_right_matches` with a char-predicate pattern:
strip every trailing character satisfying the predicate. -/
def trimRightMatches (p : Char → Bool) (s : List Char) : List Char :=
  (s.reverse.dropWhile p).reverse

/-- Rust `str::starts_with`: `startsWithChars s m` holds when `m` is an
initial segment of `s`. -/
def startsWithChars : List Char → List Char → Bool
  | _, [] => true
  | [], _ :: _ => false
  | c :: cs, m :: ms => c == m && startsWithChars cs ms

/-- The five referral markers of `main.rs`, in source order. -/
def referralMarkers : List (List Char) :=
  [ "whois:".toList,
    "Whois Server:".toList,
    "Registrar WHOIS Server:".toList,
    "ReferralServer:  whois://".toList,
    "descr:          region. Please query".toList ]

/-- The characters kept at the right end of a referral candidate:
`c.is_ascii_alphanumeric() || c == '.' || c == '-'` in the source. -/
def hostChar (c : Char) : Bool :=
  rustIsAsciiAlphanumeric c || c == '.' || c == '-'

/-- The inner scan of one response line in `main.rs`: left-trim the line,
look for the first referral marker the trimmed line starts with, and, on a
match, left-trim the text after the marker, strip trailing characters that
are not host characters, and ASCII-lowercase the result.  `none` means the
line carries no referral. -/
def extractReferral (line : List Char) : Option (List Char) :=
  match List.find? (fun m => startsWithChars (trimLeft line) m) referralMarkers with
  | some m =>
      some (toAsciiLowercase
        (trimRightMatches (fun c => !(hostChar c)) (trimLeft ((trimLeft line).drop m.length))))
  | none => none

/-- The `'line_reading` loop's effect on `nhost`: the candidate extracted
from the first line matching a referral marker; once a line matches, later
lines are no longer scanned (they are still printed).  The empty string is
the initial value of `nhost`, returned when no line matches. -/
def findCandidate : List (List Char) → List Char
  | [] => []
  | l :: ls =>
      match extractReferral l with
      | some h => h
      | none => findCandidate ls

/-- Rust `Iterator::position` on the visited-hosts list: index of the first
element equal to `x`. -/
def positionOf (x : List Char) : List (List Char) → Option Nat
  | [] => none
  | s :: rest => if s = x then some 0 else (positionOf x rest).map (· + 1)

/-- Terminal outcome of one resolution run.  `loopErr nhost reported`
records the diagnostic of the referral-loop fatal error: the looping host
and the slice of `previous_hosts` that remains in the iterator after
`position` consumed up to and including the match.  `fuelOut` only marks
exhausted fuel of the embedding. -/
inductive Outcome where
  | done : Outcome
  | loopErr : List Char → List (List Char) → Outcome
  | fuelOut : Outcome
deriving DecidableEq, Repr

/-- The `while host != ""` loop of `main.rs`, with fuel.  The result is
`(trace, output, outcome)`: `trace` is the list of hosts actually queried
(one entry per exchange, in order), `output` the lines printed to stdout
(each line is printed as read; after a referral match the rest of the
response is copied verbatim by `io::copy`, so a hop always outputs its full
response), and `outcome` how the loop ended.  `previous_hosts` is `prev`;
on advancing to a new host the current host is appended to it. -/
def run (resp : List Char → List (List Char)) :
    Nat → List Char → List (List Char) →
      List (List Char) × List (List Char) × Outcome
  | 0, host, _ =>
      if host = [] then ([], [], Outcome.done) else ([], [], Outcome.fuelOut)
  | fuel + 1, host, prev =>
      if host = [] then ([], [], Outcome.done)
      else if host = findCandidate (resp host) then
        ([host], resp host, Outcome.done)
      else
        match positionOf (findCandidate (resp host)) prev with
        | some i =>
            ([host], resp host,
              Outcome.loopErr (findCandidate (resp host)) (List.drop (i + 1) prev))
        | none =>
            ((host :: (run resp fuel (findCandidate (resp host)) (prev ++ [host])).1,
              resp host ++ (run resp fuel (findCandidate (resp host)) (prev ++ [host])).2.1,
              (run resp fuel (findCandidate (resp host)) (prev ++ [host])).2.2))

/-- Digit phase of `u16::from_str`: one or more ASCII digits whose value
fits in 16 bits; anything else fails.  Checked accumulation in `from_str`
rejects exactly the values above `u16::MAX`, since a partial value never
exceeds the final value. -/
def parseU16Digits (ds : List Char) : Option Nat :=
  if ds = [] then none
  else if ds.all (fun c => 48 ≤ c.toNat && c.toNat ≤ 57) then
    if ds.foldl (fun acc c => acc * 10 + (c.toNat - 48)) 0 < 65536 then
      some (ds.foldl (fun acc c => acc * 10 + (c.toNat - 48)) 0)
    else none
  else none

/-- Rust `str::parse::<u16>` (`u16::from_str`): an optional leading `+`,
then the digit phase. -/
def parseU16 (s : List Char) : Option Nat :=
  parseU16Digits (match s with
                  | '+' :: rest => rest
                  | _ => s)

/-- Result of the argument-parsing block of `main`. -/
inductive ArgsOutcome where
  | ok : List Char → Nat → List (List Char) → ArgsOutcome
  | help : ArgsOutcome
  | missingValue : List Char → ArgsOutcome
  | badPort : List Char → ArgsOutcome
deriving DecidableEq, Repr

/-- The `while let Some(arg) = args.next()` block of `main`: `--help`
exits immediately; `-h` takes the next argument lowercased as host;
`-p` parses the next argument as `u16` (a parse failure is fatal);
everything else is pushed onto the query vector.  A flag with no
following value is fatal. -/
def parseArgs : List Char → Nat → List (List Char) → List (List Char) → ArgsOutcome
  | host, port, qv, [] => ArgsOutcome.ok host port qv
  | host, port, qv, a :: rest =>
      if a = "--help".toList then ArgsOutcome.help
      else if a = "-h".toList then
        match rest with
        | [] => ArgsOutcome.missingValue a
        | v :: rest' => parseArgs (toAsciiLowercase v) port qv rest'
      else if a = "-p".toList then
        match rest with
        | [] => ArgsOutcome.missingValue a
        | v :: rest' =>
            match parseU16 v with
            | some n => parseArgs host n qv rest'
            | none => ArgsOutcome.badPort v
      else parseArgs host port (qv ++ [a]) rest

/-- Observable result of the whole process: `exited c` models `exit(c)`
reached during argument handling (before any connection attempt), `ran r`
models entering the resolution loop with result `r`. -/
inductive MainResult where
  | exited : Nat → MainResult
  | ran : List (List Char) × List (List Char) × Outcome → MainResult
deriving DecidableEq

/-- `main`: parse the arguments (defaults `whois.iana.org`, port 43);
`--help` exits 0; a missing flag value or an unparseable port exits 1 via
`fatal_error` before any connection attempt; otherwise the referral loop
runs against the network oracle. -/
def whoisMain (resp : List Char → List (List Char)) (fuel : Nat)
    (argv : List (List Char)) : MainResult :=
  match parseArgs "whois.iana.org".toList 43 [] argv with
  | ArgsOutcome.help => MainResult.exited 0
  | ArgsOutcome.missingValue _ => MainResult.exited 1
  | ArgsOutcome.badPort _ => MainResult.exited 1
  | ArgsOutcome.ok host _ _ => MainResult.ran (run resp fuel host [])

/-- Modelled from the spec (§4.2 step (c) wording), for comparison with
the extraction done by the code: from the substring after the marker,
strip leading whitespace, strip trailing characters that are not ASCII
alphanumeric, `.`, or `-`, and lowercase. -/
def specCandidate (rest : List Char) : List Char :=
  toAsciiLowercase (trimRightMatches (fun c => !(hostChar c)) (trimLeft rest))

/-! ### Helper lemmas -/

lemma positionOf_eq_none_iff (x : List Char) :
    ∀ l : List (List Char), positionOf x l = none ↔ x ∉ l := by
  intro l
  induction l with
  | nil => simp [positionOf]
  | cons s rest ih =>
    by_cases h : s = x
    · simp [positionOf, h]
    · simp only [positionOf, if_neg h, Option.map_eq_none', ih, List.mem_cons]
      constructor
      · intro hx hmem
        rcases hmem with he | hm
        · exact h he.symm
        · exact hx hm
      · intro hx hm
        exact hx (Or.inr hm)

lemma extractReferral_eq_none (line : List Char)
    (h : ∀ m ∈ referralMarkers, startsWithChars (trimLeft line) m = false) :
    extractReferral line = none := by
  unfold extractReferral
  have hf : List.find? (fun m => startsWithChars (trimLeft line) m) referralMarkers = none := by
    apply List.find?_eq_none.mpr
    intro m hm
    simp [h m hm]
  rw [hf]

lemma findCandidate_eq_nil (lines : List (List Char))
    (h : ∀ l ∈ lines, extractReferral l = none) : findCandidate lines = [] := by
  induction lines with
  | nil => rfl
  | cons l ls ih =>
    have h0 := h l (List.mem_cons_self l ls)
    simp only [findCandidate, h0]
    exact ih fun x hx => h x (List.mem_cons_of_mem _ hx)

lemma run_empty (resp : List Char → List (List Char)) (fuel : Nat)
    (prev : List (List Char)) : run resp fuel [] prev = ([], [], Outcome.done) := by
  cases fuel <;> simp [run]

lemma run_done_self (resp : List Char → List (List Char)) (fuel : Nat)
    (host : List Char) (prev : List (List Char)) (hh : host ≠ [])
    (hs : host = findCandidate (resp host)) :
    run resp (fuel + 1) host prev = ([host], resp host, Outcome.done) := by
  simp only [run, if_neg hh, if_pos hs]

lemma run_loop (resp : List Char → List (List Char)) (fuel : Nat)
    (host : List Char) (prev : List (List Char)) (i : Nat) (hh : host ≠ [])
    (hs : host ≠ findCandidate (resp host))
    (hp : positionOf (findCandidate (resp host)) prev = some i) :
    run resp (fuel + 1) host prev =
      ([host], resp host,
        Outcome.loopErr (findCandidate (resp host)) (List.drop (i + 1) prev)) := by
  simp only [run, if_neg hh, if_neg hs, hp]

lemma run_continue (resp : List Char → List (List Char)) (fuel : Nat)
    (host : List Char) (prev : List (List Char)) (hh : host ≠ [])
    (hs : host ≠ findCandidate (resp host))
    (hp : positionOf (findCandidate (resp host)) prev = none) :
    run resp (fuel + 1) host prev =
      (host :: (run resp fuel (findCandidate (resp host)) (prev ++ [host])).1,
       resp host ++ (run resp fuel (findCandidate (resp host)) (prev ++ [host])).2.1,
       (run resp fuel (findCandidate (resp host)) (prev ++ [host])).2.2) := by
  simp only [run, if_neg hh, if_neg hs, hp]

lemma parseU16Digits_lt_of_some (ds : List Char) (n : Nat)
    (h : parseU16Digits ds = some n) : n < 65536 := by
  unfold parseU16Digits at h
  split at h
  · exact absurd h (by simp)
  · split at h
    · split at h
      · cases Option.some.inj h
        assumption
      · exact absurd h (by simp)
    · exact absurd h (by simp)

lemma parseArgs_p_bad (host : List Char) (port : Nat) (qv : List (List Char))
    (v : List Char) (rest : List (List Char)) (hv : parseU16 v = none) :
    parseArgs host port qv ("-p".toList :: v :: rest) = ArgsOutcome.badPort v := by
  unfold parseArgs
  rw [if_neg (by decide : ¬("-p".toList = "--help".toList)),
    if_neg (by decide : ¬("-p".toList = "-h".toList)), if_pos rfl]
  dsimp only
  rw [hv]

/-! ### Concrete responders used by witnesses and counterexamples -/

/-- Oracle for a two-host referral cycle: `a` refers to `b`, `b` back to `a`. -/
def respLoopAB : List Char → List (List Char) := fun h =>
  if h = "a".toList then ["whois: b\n".toList]
  else if h = "b".toList then ["whois: a\n".toList]
  else []

/-- Oracle where `a` refers to itself. -/
def respSelfA : List Char → List (List Char) := fun h =>
  if h = "a".toList then ["whois: a\n".toList] else []

/-- Oracle whose responses carry no referral marker. -/
def respFinal : List Char → List (List Char) := fun _ =>
  ["Domain Name: EXAMPLE.COM\n".toList, "Registry Domain ID: 42\n".toList]

/-- Oracle whose referral line extracts to the empty candidate. -/
def respEmptyCand : List Char → List (List Char) := fun _ =>
  ["whois: !!!\n".toList]

/-- Oracle for the chain `a` → `b` → `c` → `b`: the loop closes on `b`,
which is not the first visited host. -/
def respChainToB : List Char → List (List Char) := fun h =>
  if h = "a".toList then ["whois: b\n".toList]
  else if h = "b".toList then ["whois: c\n".toList]
  else if h = "c".toList then ["whois: b\n".toList]
  else []

/-! ### Claims -/

/-- C1: for a referral chain A → B → A with A ≠ B (and both hosts
non-empty so that both exchanges happen), the run performs exactly the two
exchanges A then B, and inspecting B's response ends the run fatally with
the referral-loop error naming A; no third exchange occurs, for any amount
of remaining fuel. -/
theorem c1_referral_loop_fatal (resp : List Char → List (List Char)) (fuel : Nat)
    (A B : List Char) (hA : A ≠ []) (hB : B ≠ []) (hAB : A ≠ B)
    (h1 : findCandidate (resp A) = B) (h2 : findCandidate (resp B) = A) :
    run resp (fuel + 2) A [] = ([A, B], resp A ++ resp B, Outcome.loopErr A []) := by
  have hBA : B ≠ A := fun h => hAB h.symm
  have hstep : run resp (fuel + 1) B [A] = ([B], resp B, Outcome.loopErr A []) := by
    have hp : positionOf (findCandidate (resp B)) [A] = some 0 := by
      rw [h2]; simp [positionOf]
    rw [run_loop resp fuel B [A] 0 hB (by rw [h2]; exact hBA) hp, h2]
    rfl
  show run resp (fuel + 1 + 1) A [] = ([A, B], resp A ++ resp B, Outcome.loopErr A [])
  rw [run_continue resp (fuel + 1) A [] hA (by rw [h1]; exact hAB) (by rw [h1]; rfl),
    h1, List.nil_append, hstep]

/-- Witness for C1 on the concrete cycle `a` → `b` → `a`. -/
theorem c1_witness :
    run respLoopAB 2 "a".toList [] =
      (["a".toList, "b".toList], respLoopAB "a".toList ++ respLoopAB "b".toList,
        Outcome.loopErr "a".toList []) :=
  c1_referral_loop_fatal respLoopAB 0 "a".toList "b".toList
    (by decide) (by decide) (by decide) (by decide) (by decide)

/-- C2 (amended): for every line whose left-trimmed form starts with one of
the referral markers (`List.find?` returning the first one), the extracted
candidate is exactly the spec's pipeline applied to the text after the
marker: left-trim, strip trailing non-host characters, ASCII-lowercase.
For the line `Whois Server:   example.net.` the candidate is
`example.net.`: the trailing period is retained because `.` belongs to the
preserved character class. -/
theorem c2_extraction_pipeline :
    (∀ line m : List Char,
        List.find? (fun q => startsWithChars (trimLeft line) q) referralMarkers = some m →
        extractReferral line = some (specCandidate ((trimLeft line).drop m.length))) ∧
    extractReferral ("Whois Server:   example.net.".toList) =
      some ("example.net.".toList) := by
  constructor
  · intro line m hm
    unfold extractReferral specCandidate
    rw [hm]
  · decide

/-- Witness for C2's amended pipeline statement on a concrete line. -/
theorem c2_witness :
    extractReferral ("Whois Server: x\n".toList) =
      some (specCandidate
        ((trimLeft ("Whois Server: x\n".toList)).drop ("Whois Server:".toList).length)) :=
  c2_extraction_pipeline.1 ("Whois Server: x\n".toList) ("Whois Server:".toList) (by decide)

/-- Counterexample to C2 as stated: on `Whois Server:   example.net.` the
code extracts `example.net.`, not `example.net` — the trailing period is
kept, because `.` is in the class of characters the right-strip preserves. -/
theorem c2_counterexample :
    extractReferral ("Whois Server:   example.net.".toList) ≠
      some ("example.net".toList) ∧
    extractReferral ("Whois Server:   example.net.".toList) =
      some ("example.net.".toList) := by
  exact ⟨by decide, by decide⟩

/-- C3: a self-referral — the response of a (non-empty) current host A
extracts a candidate equal to A itself — ends the run cleanly with `Done`
after that single exchange, from any visited list and with any remaining
fuel; it is not an error. -/
theorem c3_self_referral_done (resp : List Char → List (List Char)) (fuel : Nat)
    (A : List Char) (prev : List (List Char)) (hA : A ≠ [])
    (hself : findCandidate (resp A) = A) :
    run resp (fuel + 1) A prev = ([A], resp A, Outcome.done) :=
  run_done_self resp fuel A prev hA hself.symm

/-- Witness for C3 on the concrete self-referring host `a`. -/
theorem c3_witness :
    run respSelfA 1 "a".toList [] = (["a".toList], respSelfA "a".toList, Outcome.done) :=
  c3_self_referral_done respSelfA 0 "a".toList [] (by decide) (by decide)

/-- C4: if no line of A's response starts (after left-trimming) with any of
the five referral markers, a fresh run against A performs exactly the one
exchange, terminates `Done`, and its output is exactly that one response. -/
theorem c4_no_referral_single_hop (resp : List Char → List (List Char)) (fuel : Nat)
    (A : List Char) (hA : A ≠ [])
    (hnone : ∀ l ∈ resp A, ∀ m ∈ referralMarkers,
      startsWithChars (trimLeft l) m = false) :
    run resp (fuel + 1) A [] = ([A], resp A, Outcome.done) := by
  have hc : findCandidate (resp A) = [] :=
    findCandidate_eq_nil _ fun l hl => extractReferral_eq_none l (hnone l hl)
  rw [run_continue resp fuel A [] hA (by rw [hc]; exact hA) (by rw [hc]; rfl), hc,
    run_empty]
  simp

/-- Witness for C4 on a referral-free response. -/
theorem c4_witness :
    run respFinal 1 "a".toList [] = (["a".toList], respFinal "a".toList, Outcome.done) :=
  c4_no_referral_single_hop respFinal 0 "a".toList (by decide) (by decide)

/-- C5: for every oracle, fuel, host and visited list, the output of a run
is the verbatim concatenation of the full responses of the queried hosts,
in hop order and within-hop line order.  In the embedding every line of a
hop is part of the output even when a referral marker matched earlier in
the response (`run` always contributes `resp host` whole), mirroring the
source, which prints each line as it is read and, after a match, copies
the remaining stream verbatim. -/
theorem c5_output_verbatim_concat (resp : List Char → List (List Char)) :
    ∀ (fuel : Nat) (host : List Char) (prev : List (List Char)),
      (run resp fuel host prev).2.1 =
        List.flatten ((run resp fuel host prev).1.map resp) := by
  intro fuel
  induction fuel with
  | zero =>
    intro host prev
    by_cases hh : host = [] <;> simp [run, hh]
  | succ fuel ih =>
    intro host prev
    by_cases hh : host = []
    · simp [run, hh]
    · by_cases hs : host = findCandidate (resp host)
      · rw [run_done_self resp fuel host prev hh hs]
        simp
      · cases hp : positionOf (findCandidate (resp host)) prev with
        | some i =>
          rw [run_loop resp fuel host prev i hh hs hp]
          simp
        | none =>
          rw [run_continue resp fuel host prev hh hs hp]
          simp [ih]

/-- C6: referral-marker matching is case-sensitive and a line matching no
marker yields no candidate; the markers are checked in the listed source
order with the first match taken (`extractReferral` selects
`List.find?` over `referralMarkers`); the wrong-case line
`WHOIS SERVER: Example.COM` matches no marker and yields no candidate,
while the correct-case line still lowercases the extracted host. -/
theorem c6_case_sensitive_markers :
    (∀ line : List Char,
        (∀ m ∈ referralMarkers, startsWithChars (trimLeft line) m = false) →
        extractReferral line = none) ∧
    extractReferral ("WHOIS SERVER: Example.COM\n".toList) = none ∧
    extractReferral ("Whois Server: Example.COM\n".toList) =
      some ("example.com".toList) := by
  refine ⟨fun line h => extractReferral_eq_none line h, by decide, by decide⟩

/-- Witness for C6: a line with no marker and the wrong-case line both
produce no referral candidate. -/
theorem c6_witness :
    extractReferral ("Domain Name: example.com\n".toList) = none ∧
    extractReferral ("WHOIS SERVER: Example.COM\n".toList) = none :=
  ⟨c6_case_sensitive_markers.1 ("Domain Name: example.com\n".toList) (by decide),
   c6_case_sensitive_markers.2.1⟩

/-- C7 (amended): when the extracted candidate is already in the visited
list, the run ends fatally and the diagnostic carries the looping host
together with only the part of the visited list strictly after the first
occurrence of that host (`Iterator::position` consumes through the match
and `as_slice` yields the remainder); hosts appended before that
occurrence are omitted from the reported chain. -/
theorem c7_loop_reports_tail (resp : List Char → List (List Char)) (fuel : Nat)
    (host : List Char) (prev : List (List Char)) (i : Nat) (hh : host ≠ [])
    (hs : host ≠ findCandidate (resp host))
    (hp : positionOf (findCandidate (resp host)) prev = some i) :
    run resp (fuel + 1) host prev =
      ([host], resp host,
        Outcome.loopErr (findCandidate (resp host)) (List.drop (i + 1) prev)) :=
  run_loop resp fuel host prev i hh hs hp

/-- Witness for C7's amended statement: closing the loop on the second
visited host reports only the part of the chain after it. -/
theorem c7_witness :
    run respChainToB 1 "c".toList ["a".toList, "b".toList] =
      (["c".toList], respChainToB "c".toList,
        Outcome.loopErr (findCandidate (respChainToB "c".toList))
          (List.drop 2 ["a".toList, "b".toList])) :=
  c7_loop_reports_tail respChainToB 0 "c".toList ["a".toList, "b".toList] 1
    (by decide) (by decide) (by decide)

/-- Counterexample to C7 as stated: on the chain `a` → `b` → `c` → `b` the
visited list is `[a, b]` when the loop on `b` is detected, yet the fatal
diagnostic carries only the looping host `b` and an empty remainder — the
previously appended host `a` appears nowhere in it. -/
theorem c7_counterexample :
    (run respChainToB 5 "a".toList []).1 = ["a".toList, "b".toList, "c".toList] ∧
    (run respChainToB 5 "a".toList []).2.2 = Outcome.loopErr ("b".toList) [] ∧
    "a".toList ≠ "b".toList := by
  exact ⟨by decide, by decide, by decide⟩

/-- C8: starting a run at a host not in a duplicate-free visited list (in
particular a fresh run, where the visited list is empty), the visited list
only ever grows by appending the current host, the visited list extended
by the trace of queried hosts stays duplicate-free — so no host is ever
the target of two exchanges — and every queried host is non-empty. -/
theorem c8_visited_nodup (resp : List Char → List (List Char)) :
    ∀ (fuel : Nat) (host : List Char) (prev : List (List Char)),
      host ∉ prev → prev.Nodup →
      (prev ++ (run resp fuel host prev).1).Nodup ∧
        ∀ h ∈ (run resp fuel host prev).1, h ≠ [] := by
  intro fuel
  induction fuel with
  | zero =>
    intro host prev h1 h2
    by_cases hh : host = [] <;> simp [run, hh, h2]
  | succ fuel ih =>
    intro host prev h1 h2
    by_cases hh : host = []
    · simp [run, hh, h2]
    · have hsingle : (prev ++ [host]).Nodup := by
        refine h2.append (List.nodup_singleton host) ?_
        intro a ha hb
        rw [List.mem_singleton] at hb
        subst hb
        exact h1 ha
      by_cases hs : host = findCandidate (resp host)
      · rw [run_done_self resp fuel host prev hh hs]
        refine ⟨hsingle, ?_⟩
        intro h hmem
        rw [List.mem_singleton] at hmem
        subst hmem
        exact hh
      · cases hp : positionOf (findCandidate (resp host)) prev with
        | some i =>
          rw [run_loop resp fuel host prev i hh hs hp]
          refine ⟨hsingle, ?_⟩
          intro h hmem
          rw [List.mem_singleton] at hmem
          subst hmem
          exact hh
        | none =>
          rw [run_continue resp fuel host prev hh hs hp]
          have hnmem : findCandidate (resp host) ∉ prev :=
            (positionOf_eq_none_iff _ _).mp hp
          have hnmem' : findCandidate (resp host) ∉ prev ++ [host] := by
            intro hcon
            rcases List.mem_append.mp hcon with hm | hm
            · exact hnmem hm
            · rw [List.mem_singleton] at hm
              exact hs hm.symm
          obtain ⟨ihnodup, ihne⟩ :=
            ih (findCandidate (resp host)) (prev ++ [host]) hnmem' hsingle
          constructor
          · have hassoc :
                prev ++ host ::
                    (run resp fuel (findCandidate (resp host)) (prev ++ [host])).1 =
                  (prev ++ [host]) ++
                    (run resp fuel (findCandidate (resp host)) (prev ++ [host])).1 := by
              simp
            rw [hassoc]
            exact ihnodup
          · intro h hmem
            rcases List.mem_cons.mp hmem with he | hmem'
            · subst he
              exact hh
            · exact ihne h hmem'

/-- Witness for C8 on a fresh two-hop run. -/
theorem c8_witness :
    ([] ++ (run respLoopAB 3 "a".toList []).1).Nodup ∧
      ∀ h ∈ (run respLoopAB 3 "a".toList []).1, h ≠ [] :=
  c8_visited_nodup respLoopAB 3 "a".toList [] (by decide) (by decide)

/-- C9: when a (non-empty) host's response yields the empty candidate —
a marker line matched but nothing after the marker survives the stripping
— and every previously visited host is non-empty (as is invariant in a
real run), the run ends cleanly with `Done` after that exchange: the
trace shows no exchange against the empty hostname, and no loop error is
raised. -/
theorem c9_empty_candidate_done (resp : List Char → List (List Char)) (fuel : Nat)
    (host : List Char) (prev : List (List Char)) (hh : host ≠ [])
    (hprev : ∀ s ∈ prev, s ≠ []) (hc : findCandidate (resp host) = []) :
    run resp (fuel + 1) host prev = ([host], resp host, Outcome.done) := by
  have hnp : positionOf (findCandidate (resp host)) prev = none := by
    rw [hc]
    exact (positionOf_eq_none_iff _ _).mpr fun hmem => hprev [] hmem rfl
  rw [run_continue resp fuel host prev hh (by rw [hc]; exact hh) hnp, hc, run_empty]
  simp

/-- Witness for C9: a marker line whose extraction strips to nothing. -/
theorem c9_witness :
    run respEmptyCand 1 "a".toList [] =
      (["a".toList], respEmptyCand "a".toList, Outcome.done) :=
  c9_empty_candidate_done respEmptyCand 0 "a".toList [] (by decide)
    (by intro s hs; cases hs) (by decide)

/-- C10: the `-p` value is parsed as an unsigned 16-bit integer — every
successful parse is below 2^16 — and whenever the value does not parse,
the process exits with status 1 during argument handling, uniformly in the
network oracle and fuel: no exchange ever happens. -/
theorem c10_bad_port_exits (resp : List Char → List (List Char)) :
    (∀ (s : List Char) (n : Nat), parseU16 s = some n → n < 65536) ∧
    (∀ (fuel : Nat) (v : List Char) (rest : List (List Char)),
        parseU16 v = none →
        whoisMain resp fuel ("-p".toList :: v :: rest) = MainResult.exited 1) := by
  constructor
  · intro s n h
    unfold parseU16 at h
    exact parseU16Digits_lt_of_some _ n h
  · intro fuel v rest hv
    unfold whoisMain
    rw [parseArgs_p_bad _ _ _ _ _ hv]

/-- Witness for C10 at `-p abc`: exit 1 regardless of the network, and a
parsable port value is a 16-bit integer. -/
theorem c10_witness :
    whoisMain (fun _ => []) 0 ["-p".toList, "abc".toList] = MainResult.exited 1 ∧
      (80 : Nat) < 65536 :=
  ⟨(c10_bad_port_exits (fun _ => [])).2 0 "abc".toList [] (by decide),
   (c10_bad_port_exits (fun _ => [])).1 "80".toList 80 (by decide)⟩

end Whois
